import Mathlib

/-!
Verification of the react-cargo state container (src/index.ts) against its
specification.  The TypeScript source is shallowly embedded: JavaScript
values become the mutual inductive type JVal (objects and arrays carry
their own field and element lists so that all recursive functions are
structural and kernel-computable), in-place mutation becomes explicit
state passing, and a thrown exception becomes an error value.  Every
recursive walk over a JVal takes a fuel argument and is structurally
recursive on it; exhausting fuel yields the distinguished error fuelOut,
which is distinct from a modelled JavaScript TypeError.
-/

mutual

/-- A JavaScript runtime value: numbers, strings, booleans, null,
undefined, function values (opaque, identified by a tag) and the two
reference structures, objects and arrays. -/
inductive JVal where
  | num (n : Int)
  | str (s : String)
  | bool (b : Bool)
  | null
  | undef
  | func (tag : Nat)
  | obj (fields : JFields)
  | arr (elems : JElems)
deriving Repr, DecidableEq

/-- The own enumerable properties of a JavaScript object, in insertion
order. -/
inductive JFields where
  | nil
  | cons (k : String) (v : JVal) (rest : JFields)
deriving Repr, DecidableEq

/-- The elements of a JavaScript array, in order. -/
inductive JElems where
  | nil
  | cons (v : JVal) (rest : JElems)
deriving Repr, DecidableEq

end

namespace Cargo

/-- The JavaScript test (typeof x == "object"), which is true for
objects, arrays and null, and false for every other value. -/
def typeofIsObject : JVal → Bool
  | .obj _ => true
  | .arr _ => true
  | .null => true
  | _ => false

/-- Number of fields of an object field list. -/
def JFields.length : JFields → Nat
  | .nil => 0
  | .cons _ _ rest => 1 + JFields.length rest

/-- First value bound to a key in a field list (JavaScript objects have
no duplicate keys, so first match is the value). -/
def assocF : JFields → String → Option JVal
  | .nil, _ => none
  | .cons k v rest, q => if k == q then some v else assocF rest q

/-- Whether a field list has a key. -/
def hasKeyF (fs : JFields) (q : String) : Bool :=
  (assocF fs q).isSome

/-- The keys of a field list, in insertion order. -/
def keysF : JFields → List String
  | .nil => []
  | .cons k _ rest => k :: keysF rest

/-- Number of elements of an array element list. -/
def lengthE : JElems → Nat
  | .nil => 0
  | .cons _ rest => 1 + lengthE rest

/-- Element at an index, if in range. -/
def getE : JElems → Nat → Option JVal
  | .nil, _ => none
  | .cons v _, 0 => some v
  | .cons _ rest, n + 1 => getE rest n

/-- Concatenation of element lists. -/
def appendE : JElems → JElems → JElems
  | .nil, ys => ys
  | .cons v rest, ys => .cons v (appendE rest ys)

/-- First n elements. -/
def takeE : Nat → JElems → JElems
  | 0, _ => .nil
  | _, .nil => .nil
  | n + 1, .cons v rest => .cons v (takeE n rest)

/-- All but the first n elements. -/
def dropE : Nat → JElems → JElems
  | 0, es => es
  | _, .nil => .nil
  | n + 1, .cons _ rest => dropE n rest

/-- Element list as a Lean list, for stating properties. -/
def toListE : JElems → List JVal
  | .nil => []
  | .cons v rest => v :: toListE rest

/-- Replace the element at an index (out of range leaves the list
unchanged). -/
def setE : JElems → Nat → JVal → JElems
  | .nil, _, _ => .nil
  | .cons _ rest, 0, w => .cons w rest
  | .cons v rest, n + 1, w => .cons v (setE rest n w)

/-- The longest leading run of decimal digits of a character list. -/
def leadingDigits (cs : List Char) : List Char :=
  cs.takeWhile Char.isDigit

/-- The natural number denoted by a list of decimal digits. -/
def natOfDigits (cs : List Char) : Nat :=
  cs.foldl (fun a c => a * 10 + (c.toNat - 48)) 0

/-- JavaScript parseInt with radix 10 on the key strings that occur as
object keys and array indices: an optional minus sign followed by
decimal digits; none models NaN.  (Every comparison NaN > n is false and
Array.prototype.splice coerces a NaN start index to 0.) -/
def parseIntJS (s : String) : Option Int :=
  match s.data with
  | '-' :: rest =>
      let ds := leadingDigits rest
      if ds.isEmpty then none else some (-(Int.ofNat (natOfDigits ds)))
  | cs =>
      let ds := leadingDigits cs
      if ds.isEmpty then none else some (Int.ofNat (natOfDigits ds))

/-- The start index actually used by Array.prototype.splice: a NaN start
becomes 0, a negative start counts from the end, a start beyond the
length is clamped to the length. -/
def spliceStart (len : Nat) (start : Option Int) : Nat :=
  match start with
  | none => 0
  | some i => if i < 0 then (len - (-i).toNat) else min i.toNat len

/-- Array.prototype.splice(start, deleteCount, ...items) as a pure
function on the element list. -/
def spliceE (es : JElems) (start : Option Int) (deleteCount : Nat)
    (items : JElems) : JElems :=
  let s := spliceStart (lengthE es) start
  appendE (takeE s es) (appendE items (dropE (s + deleteCount) es))

/-- Property read a[k] for the receivers that occur in the source
(objects, arrays and strings by canonical index); absent properties and
reads on other primitives give undefined.  Reads on null or undefined
throw and are modelled separately by getPropE. -/
def getProp (a : JVal) (k : String) : JVal :=
  match a with
  | .obj fs => (assocF fs k).getD .undef
  | .arr es =>
      match parseIntJS k with
      | some i => if 0 ≤ i then (getE es i.toNat).getD .undef else .undef
      | none => .undef
  | .str s =>
      match parseIntJS k with
      | some i =>
          if 0 ≤ i ∧ i.toNat < s.length
          then .str (String.mk [s.data.getD i.toNat ' '])
          else .undef
      | none => .undef
  | _ => (.undef)

/-- Errors a modelled JavaScript computation can raise: a TypeError
(property access or Object.keys on null or undefined), or exhaustion of
the fuel of the embedding. -/
inductive JsErr where
  | typeError
  | fuelOut
deriving Repr, DecidableEq

/-- Property read a[k] in positions where the source can throw: reading
from null or undefined is a TypeError. -/
def getPropE (a : JVal) (k : String) : Except JsErr JVal :=
  match a with
  | .null => .error .typeError
  | .undef => .error .typeError
  | a => .ok (getProp a k)

/-- Optional chaining a?.[k]: undefined when a is null or undefined,
otherwise the property read. -/
def optChain (a : JVal) (k : String) : JVal :=
  match a with
  | .null => .undef
  | .undef => .undef
  | a => getProp a k

/-- a.hasOwnProperty(k) (also Object.hasOwnProperty.call(a, k)) for
non-nullish receivers: own key of an object, in-range index of an array
or string; primitives autobox and own nothing. -/
def hasOwnB (a : JVal) (k : String) : Bool :=
  match a with
  | .obj fs => hasKeyF fs k
  | .arr es =>
      match parseIntJS k with
      | some i => 0 ≤ i && i.toNat < lengthE es
      | none => false
  | .str s =>
      match parseIntJS k with
      | some i => 0 ≤ i && i.toNat < s.length
      | none => false
  | _ => false

/-- a.hasOwnProperty(k) where a may be null or undefined, which throws a
TypeError. -/
def hasOwnE (a : JVal) (k : String) : Except JsErr Bool :=
  match a with
  | .null => .error .typeError
  | .undef => .error .typeError
  | a => .ok (hasOwnB a k)

/-- The index strings 0, 1, ... up to n, used by for..in over arrays and
strings. -/
def indexKeys : Nat → List String
  | 0 => []
  | n + 1 => indexKeys n ++ [Nat.repr n]

/-- The key sequence enumerated by for..in: own enumerable keys of an
object in insertion order, index strings for arrays and strings, nothing
for the remaining primitives and for null and undefined. -/
def forInKeys (a : JVal) : List String :=
  match a with
  | .obj fs => keysF fs
  | .arr es => indexKeys (lengthE es)
  | .str s => indexKeys s.length
  | _ => []

end Cargo

namespace Cargo

/-- spreadArray (src/index.ts lines 432-445), as the loop over the keys
of appendable enumerated by for..in.  nextState is mutated in place in
the source; here the updated element list is threaded through and
returned.  For each key: if parseInt(key) > nextState.length, splice the
value in at that (clamped) index with deleteCount 0; then, if appendable
has the key as an own property, either recurse when the value and the
current slot are both arrays (the source returns there, abandoning the
remaining keys) or splice-replace one element at the parsed index.
Structural on fuel; every recursive call decrements it. -/
def spreadGoF : Nat → JVal → List String → JElems → JElems
  | 0, _, _, ns => ns
  | fuel + 1, a, keys, ns =>
    match keys with
    | [] => ns
    | k :: rest =>
      let pk := parseIntJS k
      let ns1 :=
        match pk with
        | some i =>
            if (lengthE ns : Int) < i then spliceE ns (some i) 0 (.cons (getProp a k) .nil)
            else ns
        | none => ns
      if hasOwnB a k then
        let v := getProp a k
        let slot :=
          match pk with
          | some i => if 0 ≤ i then getE ns1 i.toNat else none
          | none => none
        match slot with
        | some (.arr inner) =>
          if typeofIsObject v then
            -- line 439: return spreadArray(value, nextState[key]);
            -- the nested array is mutated in place and the loop ends here
            match pk with
            | some i => setE ns1 i.toNat (.arr (spreadGoF fuel v (forInKeys v) inner))
            | none => ns1
          else
            spreadGoF fuel a rest (spliceE ns1 pk 1 (.cons v .nil))
        | _ =>
          spreadGoF fuel a rest (spliceE ns1 pk 1 (.cons v .nil))
      else
        spreadGoF fuel a rest ns1

/-- spreadArray applied to the full for..in key sequence of appendable. -/
def spreadArrayF (fuel : Nat) (a : JVal) (ns : JElems) : JElems :=
  spreadGoF fuel a (forInKeys a) ns

/-- The path string pushed for a leaf (src/index.ts lines 468-471): the
parent keys followed by the key, joined with a dot. -/
def pathJoin (pk : List String) (k : String) : String :=
  String.intercalate "." (pk ++ [k])

/-- The leaf step of makeUniqueKeys (lines 467-472): a value other than
the literal false appends its joined path to the accumulator; the
literal false appends nothing. -/
def mukLeaf (k : String) (v : JVal) (pk : List String) (acc : List String) :
    List String :=
  if v == .bool false then acc else acc ++ [pathJoin pk k]

mutual

/-- makeUniqueKeys (src/index.ts lines 456-476).  The source mutates the
parentkey and accumulator arrays in place and never pops parentkey after
a recursive call, so both evolving arrays are threaded through and
returned.  A non-object argument returns the pair unchanged (the source
returns [] there, reachable only at the top level); Object.keys(null)
throws a TypeError. -/
def mukValF : Nat → JVal → List String → List String →
    Except JsErr (List String × List String)
  | 0, _, _, _ => .error .fuelOut
  | fuel + 1, d, pk, acc =>
    if typeofIsObject d then
      match d with
      | .null => .error .typeError
      | .obj fs => mukFieldsF fuel fs pk acc
      | .arr es => mukElemsF fuel es 0 pk acc
      | _ => .ok (pk, acc)
    else
      .ok (pk, acc)

/-- The for..of loop of makeUniqueKeys over the keys of an object: an
object-typed value pushes its key onto parentkey (never popped) and
recurses; any other value runs the leaf step. -/
def mukFieldsF : Nat → JFields → List String → List String →
    Except JsErr (List String × List String)
  | 0, _, _, _ => .error .fuelOut
  | _ + 1, .nil, pk, acc => .ok (pk, acc)
  | fuel + 1, .cons k v rest, pk, acc =>
    if typeofIsObject v then
      match mukValF fuel v (pk ++ [k]) acc with
      | .error e => .error e
      | .ok (pk2, acc2) => mukFieldsF fuel rest pk2 acc2
    else
      mukFieldsF fuel rest pk (mukLeaf k v pk acc)

/-- The same loop over an array, whose Object.keys are its index
strings. -/
def mukElemsF : Nat → JElems → Nat → List String → List String →
    Except JsErr (List String × List String)
  | 0, _, _, _, _ => .error .fuelOut
  | _ + 1, .nil, _, pk, acc => .ok (pk, acc)
  | fuel + 1, .cons v rest, i, pk, acc =>
    if typeofIsObject v then
      match mukValF fuel v (pk ++ [Nat.repr i]) acc with
      | .error e => .error e
      | .ok (pk2, acc2) => mukElemsF fuel rest (i + 1) pk2 acc2
    else
      mukElemsF fuel rest (i + 1) pk (mukLeaf (Nat.repr i) v pk acc)

end

/-- The top-level call makeUniqueKeys(data): fresh parentkey and
accumulator, result is the accumulator. -/
def makeUniqueKeysF (fuel : Nat) (d : JVal) : Except JsErr (List String) :=
  match mukValF fuel d [] [] with
  | .error e => .error e
  | .ok (_, acc) => .ok acc

mutual

/-- collateState (src/index.ts lines 405-430) as called from set, where
stateSlice and nextState are the same object (set passes this.state for
both, and the recursion preserves the aliasing), so a single value s is
both walked and updated.  An array state delegates to spreadArray; an
object state runs the key loop; for..in over null or a primitive
iterates nothing.  The returned Option JsErr is the exception the call
throws, if any; the returned JVal is the state after the (possibly
partial, since mutation is in place) execution. -/
def collateMutF : Nat → JVal → JVal → JVal × Option JsErr
  | 0, s, _ => (s, some .fuelOut)
  | fuel + 1, s, a =>
    match s with
    | .arr l => (.arr (spreadArrayF fuel a l), none)
    | .obj fs =>
      let r := collateFieldsF fuel a fs
      (.obj r.1, r.2)
    | s => (s, none)

/-- The key loop of collateState (lines 413-427) over the fields of the
current state, threading the partial a.  An object-typed value (object,
array or null): when it is an array, line 418 first runs spreadArray
with appendableState[key], whose read throws a TypeError when a is null
or undefined; then line 420 recurses with appendableState?.[key].  A
primitive value other than the literal false is overwritten with the
value from a when a has the key as an own property (a.hasOwnProperty
throws on null or undefined).  A thrown exception aborts the loop,
leaving the remaining fields untouched. -/
def collateFieldsF : Nat → JVal → JFields → JFields × Option JsErr
  | 0, _, fs => (fs, some .fuelOut)
  | _ + 1, _, .nil => (.nil, none)
  | fuel + 1, a, .cons k v rest =>
    match v with
    | .arr l =>
      match getPropE a k with
      | .error e => (.cons k v rest, some e)
      | .ok ak =>
        let l1 := spreadArrayF fuel ak l
        let rv := collateMutF fuel (.arr l1) (optChain a k)
        match rv.2 with
        | some e => (.cons k rv.1 rest, some e)
        | none =>
          let r := collateFieldsF fuel a rest
          (.cons k rv.1 r.1, r.2)
    | .obj _ =>
      let rv := collateMutF fuel v (optChain a k)
      match rv.2 with
      | some e => (.cons k rv.1 rest, some e)
      | none =>
        let r := collateFieldsF fuel a rest
        (.cons k rv.1 r.1, r.2)
    | .null =>
      let rv := collateMutF fuel .null (optChain a k)
      match rv.2 with
      | some e => (.cons k rv.1 rest, some e)
      | none =>
        let r := collateFieldsF fuel a rest
        (.cons k rv.1 r.1, r.2)
    | _ =>
      if v == .bool false then
        let r := collateFieldsF fuel a rest
        (.cons k v r.1, r.2)
      else
        match hasOwnE a k with
        | .error e => (.cons k v rest, some e)
        | .ok true =>
          let r := collateFieldsF fuel a rest
          (.cons k (optChain a k) r.1, r.2)
        | .ok false =>
          let r := collateFieldsF fuel a rest
          (.cons k v r.1, r.2)

end

mutual

/-- JSON.parse(JSON.stringify(v)) on the values representable here:
object fields whose value is undefined or a function are dropped, array
elements that are undefined or a function become null, everything else
is copied structurally. -/
def jsonCopyF : Nat → JVal → JVal
  | 0, v => v
  | fuel + 1, v =>
    match v with
    | .obj fs => .obj (jsonCopyFieldsF fuel fs)
    | .arr es => .arr (jsonCopyElemsF fuel es)
    | v => v

/-- JSON round trip of object fields. -/
def jsonCopyFieldsF : Nat → JFields → JFields
  | 0, fs => fs
  | _ + 1, .nil => .nil
  | fuel + 1, .cons k v rest =>
    match v with
    | .undef => jsonCopyFieldsF fuel rest
    | .func _ => jsonCopyFieldsF fuel rest
    | v => .cons k (jsonCopyF fuel v) (jsonCopyFieldsF fuel rest)

/-- JSON round trip of array elements. -/
def jsonCopyElemsF : Nat → JElems → JElems
  | 0, es => es
  | _ + 1, .nil => .nil
  | fuel + 1, .cons v rest =>
    match v with
    | .undef => .cons .null (jsonCopyElemsF fuel rest)
    | .func _ => .cons .null (jsonCopyElemsF fuel rest)
    | v => .cons (jsonCopyF fuel v) (jsonCopyElemsF fuel rest)

end

end Cargo

namespace Cargo

/-- A CargoStore instance (src/index.ts lines 19-34): its key, current
state, construction-time default, precomputed listener keys, and the
EventEmitter registry as the list of (event name, callback id)
registrations in registration order. -/
structure Store where
  key : String
  state : JVal
  dflt : JVal
  listeners : List String
  events : List (String × Nat)
deriving Repr, DecidableEq

/-- The outcome of CargoStore.set: the store afterwards (state mutation
is committed in place even when a later step throws), the event names
emitted, and the exception thrown, if any. -/
structure SetResult where
  store : Store
  emitted : List String
  err : Option JsErr
deriving Repr, DecidableEq

/-- CargoStore constructor (lines 26-34): default is a JSON deep copy
when the state has typeof object, otherwise the state itself; listeners
is makeUniqueKeys of the state when nonempty and otherwise the single
key.  Propagates the TypeError makeUniqueKeys throws on a null
reached during derivation. -/
def mkStoreF (fuel : Nat) (key : String) (state : JVal) :
    Except JsErr Store :=
  let dflt := if typeofIsObject state then jsonCopyF fuel state else state
  match makeUniqueKeysF fuel state with
  | .error e => .error e
  | .ok uniqueKeys =>
      .ok { key := key
            state := state
            dflt := dflt
            listeners := if uniqueKeys.isEmpty then [key] else uniqueKeys
            events := [] }

/-- CargoStore.set (lines 41-50).  For an object-typed state the next
state is collateState(this.state, this.state, update); the assignment to
this.state is the in-place mutation already performed, so the new state
is committed even when collateState throws.  The event names fired are
the explicitly supplied listeners when nonempty, otherwise
makeUniqueKeys of the update for object-typed states (whose TypeError on
a null in the update propagates after the state is committed) and
this.listeners for primitive states.  An empty explicit list is
indistinguishable from an absent argument (listeners?.length). -/
def setF (fuel : Nat) (st : Store) (update : JVal)
    (explicit : List String) : SetResult :=
  let isNonPrimitiveState := typeofIsObject st.state
  if isNonPrimitiveState then
    let r := collateMutF fuel st.state update
    let st1 := { st with state := r.1 }
    match r.2 with
    | some e => ⟨st1, [], some e⟩
    | none =>
      if explicit.isEmpty then
        match makeUniqueKeysF fuel update with
        | .error e => ⟨st1, [], some e⟩
        | .ok ls => ⟨st1, ls, none⟩
      else ⟨st1, explicit, none⟩
  else
    let st1 := { st with state := update }
    ⟨st1, if explicit.isEmpty then st.listeners else explicit, none⟩

/-- CargoStore.addListeners (lines 70-80): registers one callback
(identified by cbId) under each given event name, in order. -/
def addListenersM (st : Store) (cbId : Nat) (paths : List String) : Store :=
  { st with events := st.events ++ paths.map (fun p => (p, cbId)) }

/-- CargoStore.emit (lines 58-62) invokes, for each emitted event name
in order, every callback registered under exactly that name, in
registration order; this is the resulting sequence of callback
invocations. -/
def emitInvoked (events : List (String × Nat)) (emitted : List String) :
    List Nat :=
  (emitted.map (fun p => (events.filter (fun e => e.1 == p)).map
    (fun e => e.2))).flatten

/-- useResetStore (lines 311-315): the returned resetter calls
stateInstance.set(stateInstance.default) with no explicit listeners. -/
def resetF (fuel : Nat) (st : Store) : SetResult :=
  setF fuel st st.dflt []

/-- typeof of a CargoStore class instance.  The guard of useSelector
(line 367) tests the instance itself, and a class instance always has
typeof object. -/
def typeofInstance (_ : Store) : String := "object"

/-- useSelector (lines 363-384) up to its subscription effect: the guard
throws when typeof stateInstance is not object (line 367), then the
listener set is makeUniqueKeys(selector) (line 370). -/
def useSelectorF (fuel : Nat) (st : Store) (selector : JVal) :
    Except JsErr (List String) :=
  if typeofInstance st != "object" then .error .typeError
  else makeUniqueKeysF fuel selector

/-- A heap of JavaScript objects, for the aliasing behaviour of
CargoStore.get: object values live in cells and are passed by
reference (a cell index). -/
structure SHeap where
  cells : List JVal
deriving Repr, DecidableEq

/-- Dereference an address. -/
def readH (h : SHeap) (a : Nat) : JVal :=
  (h.cells.getD a .undef)

/-- Mutate the object at an address. -/
def writeH (h : SHeap) (a : Nat) (v : JVal) : SHeap :=
  ⟨h.cells.set a v⟩

/-- The reference content of a CargoStore whose state is an object: the
this.state field holds the address of the state object. -/
structure StoreRefView where
  stateAddr : Nat
deriving Repr, DecidableEq

/-- CargoStore.get (lines 36-39) without the cargoStore argument:
return this.state — the stored reference itself, with no copying. -/
def getImpl (st : StoreRefView) : Nat :=
  st.stateAddr

end Cargo

deriving instance DecidableEq for Except

namespace Cargo

/-- The spreadArray loop over an empty key sequence leaves the array
unchanged, at every fuel. -/
theorem spreadGo_nil (fuel : Nat) (a : JVal) (ns : JElems) :
    spreadGoF fuel a [] ns = ns := by
  cases fuel <;> rfl

/-- spreadArray with an undefined appendable iterates nothing (for..in
over undefined has no keys). -/
theorem spreadArray_on_undef (fuel : Nat) (ns : JElems) :
    spreadArrayF fuel .undef ns = ns := by
  simp [spreadArrayF, forInKeys, spreadGo_nil]

/-- collateState with an undefined appendable never changes the state:
every write is guarded by a property test on the appendable, and those
tests either fail or throw before any write. -/
theorem collate_on_undef (fuel : Nat) :
    (∀ v, (collateMutF fuel v .undef).1 = v) ∧
      (∀ fs, (collateFieldsF fuel .undef fs).1 = fs) := by
  induction fuel with
  | zero => exact ⟨fun v => rfl, fun fs => rfl⟩
  | succ n ih =>
    constructor
    · intro v
      cases v with
      | arr l => simp [collateMutF, spreadArray_on_undef]
      | obj fs => simp [collateMutF, ih.2 fs]
      | num m => rfl
      | str s => rfl
      | bool b => rfl
      | null => rfl
      | undef => rfl
      | func t => rfl
    · intro fs
      cases fs with
      | nil => rfl
      | cons k v rest =>
        cases v with
        | arr l => simp [collateFieldsF, getPropE]
        | obj vfs =>
          have h1 : optChain JVal.undef k = JVal.undef := rfl
          simp only [collateFieldsF, h1]
          rcases h2 : (collateMutF n (.obj vfs) .undef).2 with _ | e
          · simp [h2, (ih.1 (.obj vfs)), ih.2 rest]
          · simp [h2, (ih.1 (.obj vfs))]
        | null =>
          have h1 : optChain JVal.undef k = JVal.undef := rfl
          simp only [collateFieldsF, h1]
          rcases h2 : (collateMutF n .null .undef).2 with _ | e
          · simp [h2, (ih.1 .null), ih.2 rest]
          · simp [h2, (ih.1 .null)]
        | num m =>
          simp [collateFieldsF, hasOwnE]
        | str s =>
          simp [collateFieldsF, hasOwnE]
        | bool b =>
          cases b with
          | false => simp [collateFieldsF, ih.2 rest]
          | true => simp [collateFieldsF, hasOwnE]
        | undef => simp [collateFieldsF, hasOwnE]
        | func t => simp [collateFieldsF, hasOwnE]

/-- Frame property of the merge loop: a key the partial object does not
have keeps its associated value, whether or not the walk later throws. -/
theorem collate_absent_key (fuel : Nat) :
    ∀ (afs fs : JFields) (k : String), hasKeyF afs k = false →
      assocF (collateFieldsF fuel (.obj afs) fs).1 k = assocF fs k := by
  induction fuel with
  | zero => intro afs fs k _; rfl
  | succ n ih =>
    intro afs fs k hk
    cases fs with
    | nil => rfl
    | cons k0 v rest =>
      have habs : assocF afs k = none := by
        have := hk
        unfold hasKeyF at this
        cases h : assocF afs k with
        | none => rfl
        | some w => rw [h] at this; simp at this
      by_cases hkk : k0 = k
      · subst hkk
        have hget : getProp (.obj afs) k0 = .undef := by
          simp [getProp, habs]
        have hopt : optChain (.obj afs) k0 = .undef := by
          simp [optChain, hget]
        cases v with
        | arr l =>
          have hsp : spreadArrayF n .undef l = l := spreadArray_on_undef n l
          simp only [collateFieldsF, getPropE, hget, hsp, hopt]
          rcases h2 : (collateMutF n (.arr l) .undef).2 with _ | e
          · simp [h2, (collate_on_undef n).1 (.arr l), assocF]
          · simp [h2, (collate_on_undef n).1 (.arr l), assocF]
        | obj vfs =>
          simp only [collateFieldsF, hopt]
          rcases h2 : (collateMutF n (.obj vfs) .undef).2 with _ | e
          · simp [h2, (collate_on_undef n).1 (.obj vfs), assocF]
          · simp [h2, (collate_on_undef n).1 (.obj vfs), assocF]
        | null =>
          simp only [collateFieldsF, hopt]
          rcases h2 : (collateMutF n .null .undef).2 with _ | e
          · simp [h2, (collate_on_undef n).1 .null, assocF]
          · simp [h2, (collate_on_undef n).1 .null, assocF]
        | num m =>
          simp [collateFieldsF, hasOwnE, hasOwnB, hasKeyF, habs, assocF]
        | str s =>
          simp [collateFieldsF, hasOwnE, hasOwnB, hasKeyF, habs, assocF]
        | bool b =>
          cases b with
          | false => simp [collateFieldsF, assocF]
          | true => simp [collateFieldsF, hasOwnE, hasOwnB, hasKeyF, habs, assocF]
        | undef => simp [collateFieldsF, hasOwnE, hasOwnB, hasKeyF, habs, assocF]
        | func t => simp [collateFieldsF, hasOwnE, hasOwnB, hasKeyF, habs, assocF]
      · have hne : (k0 == k) = false := by simp [hkk]
        cases v with
        | arr l =>
          simp only [collateFieldsF]
          rcases hg : getPropE (.obj afs) k0 with e | ak
          · simp [assocF, hne]
          · simp only []
            rcases h2 : (collateMutF n (.arr (spreadArrayF n ak l)) (optChain (.obj afs) k0)).2 with _ | e
            · simp [h2, assocF, hne, ih afs rest k hk]
            · simp [h2, assocF, hne]
        | obj vfs =>
          simp only [collateFieldsF]
          rcases h2 : (collateMutF n (.obj vfs) (optChain (.obj afs) k0)).2 with _ | e
          · simp [h2, assocF, hne, ih afs rest k hk]
          · simp [h2, assocF, hne]
        | null =>
          simp only [collateFieldsF]
          rcases h2 : (collateMutF n .null (optChain (.obj afs) k0)).2 with _ | e
          · simp [h2, assocF, hne, ih afs rest k hk]
          · simp [h2, assocF, hne]
        | num m =>
          simp only [collateFieldsF]
          rcases h3 : hasOwnE (.obj afs) k0 with e | b
          · simp [assocF, hne]
          · cases b <;> simp [assocF, hne, ih afs rest k hk]
        | str s =>
          simp only [collateFieldsF]
          rcases h3 : hasOwnE (.obj afs) k0 with e | b
          · simp [assocF, hne]
          · cases b <;> simp [assocF, hne, ih afs rest k hk]
        | bool b =>
          cases b with
          | false => simp [collateFieldsF, assocF, hne, ih afs rest k hk]
          | true =>
            simp only [collateFieldsF]
            rcases h3 : hasOwnE (.obj afs) k0 with e | b2
            · simp [assocF, hne]
            · cases b2 <;> simp [assocF, hne, ih afs rest k hk]
        | undef =>
          simp only [collateFieldsF]
          rcases h3 : hasOwnE (.obj afs) k0 with e | b
          · simp [assocF, hne]
          · cases b <;> simp [assocF, hne, ih afs rest k hk]
        | func t =>
          simp only [collateFieldsF]
          rcases h3 : hasOwnE (.obj afs) k0 with e | b
          · simp [assocF, hne]
          · cases b <;> simp [assocF, hne, ih afs rest k hk]

/-- A field whose current value is the literal false is never written by
the merge loop: the overwrite at line 423 is guarded by value !== false. -/
theorem collate_false_leaf (fuel : Nat) :
    ∀ (a : JVal) (fs : JFields) (k : String),
      assocF fs k = some (.bool false) →
      assocF (collateFieldsF fuel a fs).1 k = some (.bool false) := by
  induction fuel with
  | zero => intro a fs k h; exact h
  | succ n ih =>
    intro a fs k h
    cases fs with
    | nil => simp [assocF] at h
    | cons k0 v rest =>
      by_cases hkk : k0 = k
      · subst hkk
        have hv : v = .bool false := by
          simp [assocF] at h; exact h
        subst hv
        simp [collateFieldsF, assocF]
      · have hne : (k0 == k) = false := by simp [hkk]
        have hrest : assocF rest k = some (.bool false) := by
          simpa [assocF, hne] using h
        cases v with
        | arr l =>
          simp only [collateFieldsF]
          rcases hg : getPropE a k0 with e | ak
          · simp [assocF, hne, hrest]
          · rcases h2 : (collateMutF n (.arr (spreadArrayF n ak l)) (optChain a k0)).2 with _ | e
            · simp [h2, assocF, hne, ih a rest k hrest]
            · simp [h2, assocF, hne, hrest]
        | obj vfs =>
          simp only [collateFieldsF]
          rcases h2 : (collateMutF n (.obj vfs) (optChain a k0)).2 with _ | e
          · simp [h2, assocF, hne, ih a rest k hrest]
          · simp [h2, assocF, hne, hrest]
        | null =>
          simp only [collateFieldsF]
          rcases h2 : (collateMutF n .null (optChain a k0)).2 with _ | e
          · simp [h2, assocF, hne, ih a rest k hrest]
          · simp [h2, assocF, hne, hrest]
        | num m =>
          simp only [collateFieldsF]
          rcases h3 : hasOwnE a k0 with e | b
          · simp [assocF, hne, hrest]
          · cases b <;> simp [assocF, hne, ih a rest k hrest]
        | str s =>
          simp only [collateFieldsF]
          rcases h3 : hasOwnE a k0 with e | b
          · simp [assocF, hne, hrest]
          · cases b <;> simp [assocF, hne, ih a rest k hrest]
        | bool b =>
          cases b with
          | false => simp [collateFieldsF, assocF, hne, ih a rest k hrest]
          | true =>
            simp only [collateFieldsF]
            rcases h3 : hasOwnE a k0 with e | b2
            · simp [assocF, hne, hrest]
            · cases b2 <;> simp [assocF, hne, ih a rest k hrest]
        | undef =>
          simp only [collateFieldsF]
          rcases h3 : hasOwnE a k0 with e | b
          · simp [assocF, hne, hrest]
          · cases b <;> simp [assocF, hne, ih a rest k hrest]
        | func t =>
          simp only [collateFieldsF]
          rcases h3 : hasOwnE a k0 with e | b
          · simp [assocF, hne, hrest]
          · cases b <;> simp [assocF, hne, ih a rest k hrest]

/-- The state committed by set for an object-typed state is the first
component of collateState, in every error branch. -/
theorem setF_state_obj (fuel : Nat) (st : Store) (update : JVal)
    (explicit : List String) (h : typeofIsObject st.state = true) :
    (setF fuel st update explicit).store.state =
      (collateMutF fuel st.state update).1 := by
  simp only [setF, h, if_true]
  rcases h2 : (collateMutF fuel st.state update).2 with _ | e
  · simp only [h2]
    by_cases he : explicit.isEmpty
    · simp only [he, if_true]
      rcases h3 : makeUniqueKeysF fuel update with e2 | ls <;> simp
    · simp [he]
  · simp [h2]

end Cargo

namespace Cargo

mutual

/-- A value contains the literal null somewhere reachable through
objects and arrays (including being null itself). -/
inductive HasNullV : JVal → Prop where
  | self : HasNullV .null
  | obj : ∀ fs, HasNullF fs → HasNullV (.obj fs)
  | arr : ∀ es, HasNullE es → HasNullV (.arr es)

/-- Some field value contains null. -/
inductive HasNullF : JFields → Prop where
  | head : ∀ k v rest, HasNullV v → HasNullF (.cons k v rest)
  | tail : ∀ k v rest, HasNullF rest → HasNullF (.cons k v rest)

/-- Some element contains null. -/
inductive HasNullE : JElems → Prop where
  | head : ∀ v rest, HasNullV v → HasNullE (.cons v rest)
  | tail : ∀ v rest, HasNullE rest → HasNullE (.cons v rest)

end

/-- Whether a modelled computation returned normally. -/
def isOkE {α : Type} : Except JsErr α → Bool
  | .ok _ => true
  | .error _ => false

/-- makeUniqueKeys never returns normally on input containing null: the
walk recurses into every object-typed value, null included, and
Object.keys(null) throws; with insufficient fuel the model reports
fuelOut instead, so no fuel makes the call succeed. -/
theorem mukVal_hasNull (fuel : Nat) :
    (∀ d pk acc, HasNullV d → isOkE (mukValF fuel d pk acc) = false) ∧
      (∀ fs pk acc, HasNullF fs → isOkE (mukFieldsF fuel fs pk acc) = false) ∧
      (∀ es i pk acc, HasNullE es → isOkE (mukElemsF fuel es i pk acc) = false) := by
  induction fuel with
  | zero => exact ⟨fun _ _ _ _ => rfl, fun _ _ _ _ => rfl, fun _ _ _ _ _ => rfl⟩
  | succ n ih =>
    refine ⟨?_, ?_, ?_⟩
    · intro d pk acc hd
      cases hd with
      | self => rfl
      | obj fs hfs => simpa [mukValF, typeofIsObject] using ih.2.1 fs pk acc hfs
      | arr es hes => simpa [mukValF, typeofIsObject] using ih.2.2 es 0 pk acc hes
    · intro fs pk acc hfs
      cases hfs with
      | head k v rest hv =>
        have hobj : typeofIsObject v = true := by
          cases hv <;> rfl
        simp only [mukFieldsF, hobj, if_true]
        rcases h2 : mukValF n v (pk ++ [k]) acc with e | pa
        · simp [isOkE]
        · have := ih.1 v (pk ++ [k]) acc hv
          rw [h2] at this
          simp [isOkE] at this
      | tail k v rest hrest =>
        by_cases hobj : typeofIsObject v = true
        · simp only [mukFieldsF, hobj, if_true]
          rcases h2 : mukValF n v (pk ++ [k]) acc with e | pa
          · simp [isOkE]
          · exact ih.2.1 rest pa.1 pa.2 hrest
        · simp only [mukFieldsF, hobj]
          simp only [Bool.false_eq_true, if_false]
          exact ih.2.1 rest pk (mukLeaf k v pk acc) hrest
    · intro es i pk acc hes
      cases hes with
      | head v rest hv =>
        have hobj : typeofIsObject v = true := by
          cases hv <;> rfl
        simp only [mukElemsF, hobj, if_true]
        rcases h2 : mukValF n v (pk ++ [Nat.repr i]) acc with e | pa
        · simp [isOkE]
        · have := ih.1 v (pk ++ [Nat.repr i]) acc hv
          rw [h2] at this
          simp [isOkE] at this
      | tail v rest hrest =>
        by_cases hobj : typeofIsObject v = true
        · simp only [mukElemsF, hobj, if_true]
          rcases h2 : mukValF n v (pk ++ [Nat.repr i]) acc with e | pa
          · simp [isOkE]
          · exact ih.2.2 rest (i + 1) pa.1 pa.2 hrest
        · simp only [mukElemsF, hobj]
          simp only [Bool.false_eq_true, if_false]
          exact ih.2.2 rest (i + 1) pk (mukLeaf (Nat.repr i) v pk acc) hrest

/-- The top-level derivation fails on input containing null. -/
theorem makeUniqueKeys_hasNull (fuel : Nat) (d : JVal) (h : HasNullV d) :
    isOkE (makeUniqueKeysF fuel d) = false := by
  have := (mukVal_hasNull fuel).1 d [] [] h
  unfold makeUniqueKeysF
  rcases h2 : mukValF fuel d [] [] with e | pa
  · rfl
  · rw [h2] at this; simp [isOkE] at this

/-- The constructor fails on an initial state containing null, because
it derives listener keys from it. -/
theorem mkStore_hasNull (fuel : Nat) (key : String) (d : JVal)
    (h : HasNullV d) : isOkE (mkStoreF fuel key d) = false := by
  have := makeUniqueKeys_hasNull fuel d h
  unfold mkStoreF
  rcases h2 : makeUniqueKeysF fuel d with e | ls
  · rfl
  · rw [h2] at this; simp [isOkE] at this

/-- Taking as many elements as the length is the identity. -/
theorem takeE_length : ∀ (es : JElems), takeE (lengthE es) es = es
  | .nil => rfl
  | .cons v rest => by
      simp only [lengthE, Nat.add_comm 1 (lengthE rest), takeE]
      rw [takeE_length rest]

/-- Dropping from the empty list gives the empty list. -/
theorem dropE_nil : ∀ (m : Nat), dropE m .nil = .nil
  | 0 => rfl
  | _ + 1 => rfl

/-- Dropping the length plus m drops everything and continues on nil. -/
theorem dropE_length_add : ∀ (es : JElems) (m : Nat),
    dropE (lengthE es + m) es = dropE m .nil
  | .nil, m => by simp [lengthE]
  | .cons v rest, m => by
      have h : lengthE (.cons v rest) + m = (lengthE rest + m) + 1 := by
        simp [lengthE]; omega
      rw [h]
      simpa [dropE] using dropE_length_add rest m

/-- Reading at or beyond the length gives none. -/
theorem getE_length_le : ∀ (es : JElems) (n : Nat), lengthE es ≤ n →
    getE es n = none
  | .nil, n => fun _ => by cases n <;> rfl
  | .cons v rest, 0 => fun h => by simp [lengthE] at h
  | .cons v rest, n + 1 => fun h => by
      have : lengthE rest ≤ n := by simp [lengthE] at h; omega
      simpa [getE] using getE_length_le rest n this

/-- Concatenation of element lists is associative. -/
theorem appendE_assoc : ∀ (a b c : JElems),
    appendE (appendE a b) c = appendE a (appendE b c)
  | .nil, _, _ => rfl
  | .cons v rest, b, c => by simp [appendE, appendE_assoc rest b c]

/-- Length of a concatenation. -/
theorem lengthE_append : ∀ (a b : JElems),
    lengthE (appendE a b) = lengthE a + lengthE b
  | .nil, b => by simp [appendE, lengthE]
  | .cons v rest, b => by simp [appendE, lengthE, lengthE_append rest b]; omega

/-- A splice start at or beyond the length is clamped to the length. -/
theorem spliceStart_ge (len : Nat) (i : Int) (h : (len : Int) ≤ i) :
    spliceStart len (some i) = len := by
  show (if i < 0 then len - (-i).toNat else min i.toNat len) = len
  rw [if_neg (by omega)]
  exact Nat.min_eq_right (by omega)

/-- spreadArray with a single index-to-value override whose index parses
beyond the length of the array: the original elements are kept in place
and the value is appended twice — once by the splice at line 435
(deleteCount 0) and once more by the fall-through splice at line 441
(deleteCount 1, which deletes nothing beyond the end). -/
theorem spread_single_beyond (fuel : Nat) (k : String) (i : Int) (v : JVal)
    (ns : JElems) (hp : parseIntJS k = some i)
    (hi : (lengthE ns : Int) < i) :
    spreadArrayF (fuel + 1) (.obj (.cons k v .nil)) ns =
      appendE ns (.cons v (.cons v .nil)) := by
  have hnn : 0 ≤ i := le_trans (Int.ofNat_nonneg _) (le_of_lt hi)
  have hlen : lengthE ns < i.toNat := by omega
  have hgp : getProp (.obj (.cons k v .nil)) k = v := by
    simp [getProp, assocF]
  have hown : hasOwnB (.obj (.cons k v .nil)) k = true := by
    simp [hasOwnB, hasKeyF, assocF]
  have hkeys : forInKeys (.obj (.cons k v .nil)) = [k] := by
    simp [forInKeys, keysF]
  have hsplice1 : spliceE ns (some i) 0 (.cons v .nil) =
      appendE ns (.cons v .nil) := by
    simp only [spliceE, spliceStart_ge (lengthE ns) i (le_of_lt hi),
      takeE_length, Nat.add_zero]
    rw [show lengthE ns = lengthE ns + 0 from rfl, dropE_length_add, dropE_nil]
    rfl
  have hlen1 : lengthE (appendE ns (.cons v .nil)) = lengthE ns + 1 := by
    simp [lengthE_append, lengthE]
  have hget1 : getE (appendE ns (.cons v .nil)) i.toNat = none := by
    apply getE_length_le
    omega
  have hsplice2 : spliceE (appendE ns (.cons v .nil)) (some i) 1 (.cons v .nil) =
      appendE ns (.cons v (.cons v .nil)) := by
    have hs2 : spliceStart (lengthE (appendE ns (.cons v .nil))) (some i) =
        lengthE ns + 1 := by
      rw [hlen1]
      exact spliceStart_ge _ i (by omega)
    simp only [spliceE, hs2]
    rw [show lengthE ns + 1 = lengthE (appendE ns (.cons v .nil)) from hlen1.symm,
      takeE_length]
    rw [show lengthE (appendE ns (.cons v .nil)) + 1 =
      lengthE (appendE ns (.cons v .nil)) + 1 from rfl, dropE_length_add, dropE_nil]
    rw [appendE_assoc]
    rfl
  show spreadGoF (fuel + 1) (.obj (.cons k v .nil)) (forInKeys (.obj (.cons k v .nil))) ns =
      appendE ns (.cons v (.cons v .nil))
  rw [hkeys]
  simp only [spreadGoF, hp, hgp, hown]
  rw [if_pos hi]
  rw [hsplice1]
  simp only [if_pos hnn, hget1]
  rw [hsplice2]
  exact spreadGo_nil fuel _ _

/-- A callback is invoked by an emit exactly when it is registered under
one of the emitted event names. -/
theorem emitInvoked_mem (events : List (String × Nat))
    (emitted : List String) (cb : Nat) :
    cb ∈ emitInvoked events emitted ↔
      ∃ p, p ∈ emitted ∧ (p, cb) ∈ events := by
  unfold emitInvoked
  rw [List.mem_flatten]
  constructor
  · rintro ⟨l, hl, hcb⟩
    rw [List.mem_map] at hl
    obtain ⟨p, hp, rfl⟩ := hl
    rw [List.mem_map] at hcb
    obtain ⟨e, he, rfl⟩ := hcb
    rw [List.mem_filter] at he
    have hep : e.1 = p := by simpa using he.2
    subst hep
    refine ⟨e.1, hp, ?_⟩
    simpa using he.1
  · rintro ⟨p, hp, hreg⟩
    refine ⟨(events.filter (fun e => e.1 == p)).map (fun e => e.2), ?_, ?_⟩
    · rw [List.mem_map]
      exact ⟨p, hp, rfl⟩
    · rw [List.mem_map]
      refine ⟨(p, cb), ?_, rfl⟩
      rw [List.mem_filter]
      exact ⟨hreg, by simp⟩

/-- Writing through an in-range address is read back at that address. -/
theorem getD_set_self : ∀ (l : List JVal) (a : Nat) (v : JVal),
    a < l.length → (l.set a v).getD a .undef = v
  | [], a, v => by intro h; simp at h
  | x :: rest, 0, v => by intro _; rfl
  | x :: rest, a + 1, v => by
      intro h
      have : a < rest.length := by simpa using h
      simpa [List.set, List.getD] using getD_set_self rest a v this

end Cargo

deriving instance DecidableEq for Except

namespace Cargo

/-- The fields of an object value (nil for any other value). -/
def objFieldsOf : JVal → JFields
  | .obj fs => fs
  | _ => .nil

/-- The initial state of the C1 scenario: counter 0, name x. -/
def c1init : JVal := .obj (.cons "counter" (.num 0) (.cons "name" (.str "x") .nil))

/-- The container the constructor builds for the C1 scenario. -/
def c1store : Store :=
  { key := "store", state := c1init, dflt := c1init,
    listeners := ["counter", "name"], events := [] }

/-- The C1 container after a callback with id 7 is registered, via
addListeners, only on the path counter. -/
def c1sub : Store := addListenersM c1store 7 ["counter"]

/-- C1: for a container whose state has counter 0 and name x, a callback
registered via addListeners only on the path counter is invoked when set
is called with counter 1, and is not invoked when set is called with
name y. -/
theorem c1_selective_dispatch :
    mkStoreF 100 "store" c1init = .ok c1store ∧
    7 ∈ emitInvoked c1sub.events
      (setF 100 c1sub (.obj (.cons "counter" (.num 1) .nil)) []).emitted ∧
    ¬ 7 ∈ emitInvoked c1sub.events
      (setF 100 c1sub (.obj (.cons "name" (.str "y") .nil)) []).emitted := by
  decide

/-- The C2 state: a 1, b an object with c 2 and d 3. -/
def c2state : JVal :=
  .obj (.cons "a" (.num 1)
    (.cons "b" (.obj (.cons "c" (.num 2) (.cons "d" (.num 3) .nil))) .nil))

/-- The C2 update: b an object with c 5. -/
def c2update : JVal := .obj (.cons "b" (.obj (.cons "c" (.num 5) .nil)) .nil)

/-- The expected C2 result: a 1, b an object with c 5 and d 3. -/
def c2target : JVal :=
  .obj (.cons "a" (.num 1)
    (.cons "b" (.obj (.cons "c" (.num 5) (.cons "d" (.num 3) .nil))) .nil))

/-- The container the constructor builds for the C2 scenario. -/
def c2store : Store :=
  { key := "s2", state := c2state, dflt := c2state,
    listeners := ["a", "b.c", "b.d"], events := [] }

/-- C2: set applies a partial merge, not a full replace.  Every
top-level key of the previous object state that the partial object does
not have keeps its previous value in the committed state, and the
concrete example of the claim — state a 1, b with c 2 and d 3, update b
with c 5 — yields exactly a 1, b with c 5 and d 3, without throwing. -/
theorem c2_partial_merge :
    (∀ fuel key d ls ev (fs afs : JFields) k, hasKeyF afs k = false →
        assocF (objFieldsOf
          (setF fuel ⟨key, .obj fs, d, ls, ev⟩ (.obj afs) []).store.state) k =
          assocF fs k) ∧
    mkStoreF 100 "s2" c2state = .ok c2store ∧
    (setF 100 c2store c2update []).store.state = c2target ∧
    (setF 100 c2store c2update []).err = none := by
  refine ⟨?_, by decide, by decide, by decide⟩
  intro fuel key d ls ev fs afs k hk
  rw [setF_state_obj fuel ⟨key, .obj fs, d, ls, ev⟩ (.obj afs) [] rfl]
  cases fuel with
  | zero => rfl
  | succ n => exact collate_absent_key n afs fs k hk

/-- Witness for C2 at a concrete input: the key a is absent from the
update, so its value survives the set. -/
theorem c2_witness :
    assocF (objFieldsOf
      (setF 100 ⟨"s2", .obj (objFieldsOf c2state), c2state, [], []⟩
        (.obj (objFieldsOf c2update)) []).store.state) "a" =
      assocF (objFieldsOf c2state) "a" :=
  c2_partial_merge.1 100 "s2" c2state [] [] (objFieldsOf c2state)
    (objFieldsOf c2update) "a" (by decide)

/-- A one-cell heap whose cell holds the state object of the C3
scenario. -/
def c3heap : SHeap := ⟨[.obj (.cons "x" (.num 1) .nil)]⟩

/-- The reference view of the C3 container: this.state holds address 0. -/
def c3view : StoreRefView := ⟨0⟩

/-- C3 counterexample: get returns the stored reference itself, so both
calls return the same address and mutating through the returned
reference changes what the internal state address holds — the claim
that mutation through a returned copy never affects the internal state
is false. -/
theorem c3_get_counterexample :
    getImpl c3view = getImpl c3view ∧
    readH (writeH c3heap (getImpl c3view) (.num 99)) c3view.stateAddr = .num 99 ∧
    readH c3heap c3view.stateAddr ≠ .num 99 := by
  decide

/-- C3 amended: get returns the live internal reference, not a copy;
two calls return the same reference, hence structurally equal values,
and a mutation through the returned reference is visible in the
container internal state. -/
theorem c3_get_live_reference :
    ∀ (h : SHeap) (st : StoreRefView) (v : JVal),
      st.stateAddr < h.cells.length →
      getImpl st = st.stateAddr ∧
      readH (writeH h (getImpl st) v) st.stateAddr = v := by
  intro h st v hlt
  exact ⟨rfl, getD_set_self h.cells st.stateAddr v hlt⟩

/-- Witness for C3 at the concrete one-cell heap. -/
theorem c3_witness :
    getImpl c3view = c3view.stateAddr ∧
    readH (writeH c3heap (getImpl c3view) (.num 42)) c3view.stateAddr = .num 42 :=
  c3_get_live_reference c3heap c3view (.num 42) (by decide)

/-- The construction-time state of the C4 scenario: flag true. -/
def c4init : JVal := .obj (.cons "flag" (.bool true) .nil)

/-- The container the constructor builds for the C4 scenario. -/
def c4store : Store :=
  { key := "k4", state := c4init, dflt := c4init,
    listeners := ["flag"], events := [] }

/-- The C4 container after a callback with id 5 is registered on the
container key and set is called with flag false. -/
def c4afterSet : Store :=
  (setF 100 (addListenersM c4store 5 ["k4"])
    (.obj (.cons "flag" (.bool false) .nil)) []).store

/-- The outcome of the reset that follows. -/
def c4afterReset : SetResult := resetF 100 c4afterSet

/-- C4 counterexample: after set flips flag to false, reset — realized
as set of the construction-time default — does not restore the default
(the false leaf is skipped by the merge), fires only the leaf path flag
rather than the key plus every derived path, and the subscriber
registered on the key k4 is not notified. -/
theorem c4_reset_counterexample :
    mkStoreF 100 "k4" c4init = .ok c4store ∧
    c4afterReset.err = none ∧
    c4afterReset.store.state ≠ c4afterReset.store.dflt ∧
    c4afterReset.emitted = ["flag"] ∧
    ¬ "k4" ∈ c4afterReset.emitted ∧
    ¬ 5 ∈ emitInvoked c4afterSet.events c4afterReset.emitted := by
  decide

/-- C4 amended: for an object-typed state, reset partial-merges the
default into the current state — a leaf currently false is left
unchanged rather than restored — and fires exactly the leaf paths
derived from the default (not the container key), so a callback is
notified exactly when it is registered on one of those derived paths. -/
theorem c4_reset_behavior :
    ∀ (fuel : Nat) (st : Store) (ls : List String) (cb : Nat) (k : String),
      typeofIsObject st.state = true →
      (collateMutF fuel st.state st.dflt).2 = none →
      makeUniqueKeysF fuel st.dflt = .ok ls →
      assocF (objFieldsOf st.state) k = some (.bool false) →
      (resetF fuel st).emitted = ls ∧
      (resetF fuel st).err = none ∧
      (cb ∈ emitInvoked st.events (resetF fuel st).emitted ↔
        ∃ p, p ∈ ls ∧ (p, cb) ∈ st.events) ∧
      assocF (objFieldsOf (resetF fuel st).store.state) k = some (.bool false) := by
  intro fuel st ls cb k h1 h2 h3 h4
  have hres : resetF fuel st =
      ⟨{ st with state := (collateMutF fuel st.state st.dflt).1 }, ls, none⟩ := by
    unfold resetF setF
    rw [h1]
    simp only [if_true, h2, h3, List.isEmpty_nil, if_pos]
  refine ⟨by rw [hres], by rw [hres], ?_, ?_⟩
  · rw [hres]
    exact emitInvoked_mem st.events ls cb
  · rw [hres]
    show assocF (objFieldsOf (collateMutF fuel st.state st.dflt).1) k =
      some (.bool false)
    cases fuel with
    | zero => simp [collateMutF] at h2
    | succ n =>
      cases hst : st.state with
      | obj fs =>
        rw [hst] at h4
        exact collate_false_leaf n st.dflt fs k h4
      | arr l => rw [hst] at h4; simp [objFieldsOf, assocF] at h4
      | null => rw [hst] at h4; simp [objFieldsOf, assocF] at h4
      | num m => rw [hst] at h1; simp [typeofIsObject] at h1
      | str s => rw [hst] at h1; simp [typeofIsObject] at h1
      | bool b => rw [hst] at h1; simp [typeofIsObject] at h1
      | undef => rw [hst] at h1; simp [typeofIsObject] at h1
      | func t => rw [hst] at h1; simp [typeofIsObject] at h1

/-- A C4 witness container: current state has flag true and gone false,
the default has flag true and gone true, and two callbacks are
registered, one on flag and one on an unrelated path. -/
def c4wstore : Store :=
  { key := "k4w",
    state := .obj (.cons "flag" (.bool true) (.cons "gone" (.bool false) .nil)),
    dflt := .obj (.cons "flag" (.bool true) (.cons "gone" (.bool true) .nil)),
    listeners := ["flag", "gone"],
    events := [("flag", 3), ("zzz", 9)] }

/-- Witness for C4 at the concrete container: reset fires the derived
paths flag and gone, callback 3 is notified because it is registered on
flag, and the leaf gone stays false instead of being restored to the
default true. -/
theorem c4_witness :
    (resetF 100 c4wstore).emitted = ["flag", "gone"] ∧
    (resetF 100 c4wstore).err = none ∧
    (3 ∈ emitInvoked c4wstore.events (resetF 100 c4wstore).emitted ↔
      ∃ p, p ∈ ["flag", "gone"] ∧ (p, 3) ∈ c4wstore.events) ∧
    assocF (objFieldsOf (resetF 100 c4wstore).store.state) "gone" =
      some (.bool false) :=
  c4_reset_behavior 100 c4wstore ["flag", "gone"] 3 "gone"
    (by decide) (by decide) (by decide) (by decide)

/-- The C5 input: a an object with b 1, then c 2. -/
def c5init : JVal :=
  .obj (.cons "a" (.obj (.cons "b" (.num 1) .nil)) (.cons "c" (.num 2) .nil))

/-- C5: evaluation of makeUniqueKeys on the input of the claim.  The
claim expects the set of paths a.b and c, but the source never pops the
shared parentkey array after recursing into a nested value, so the
sibling c that follows the nested object a is emitted as a.c. -/
theorem c5_derive_evaluation :
    makeUniqueKeysF 100 c5init = .ok ["a.b", "a.c"] := by
  decide

/-- The C6 state: list holding the array 1, 2. -/
def c6init : JVal :=
  .obj (.cons "list" (.arr (.cons (.num 1) (.cons (.num 2) .nil))) .nil)

/-- The container the constructor builds for the C6 scenario. -/
def c6store : Store :=
  { key := "k6", state := c6init, dflt := c6init,
    listeners := ["list.0", "list.1"], events := [] }

/-- The C6 update: list an object mapping index 5 to 9. -/
def c6update : JVal := .obj (.cons "list" (.obj (.cons "5" (.num 9) .nil)) .nil)

/-- The list set produces in the C6 scenario: the original elements 1
and 2 in order, followed by the inserted 9 four times (set runs
spreadArray twice over the update, and each run appends the value
twice). -/
def c6result : JElems :=
  .cons (.num 1) (.cons (.num 2) (.cons (.num 9) (.cons (.num 9)
    (.cons (.num 9) (.cons (.num 9) .nil)))))

/-- C6: an index-to-value override whose index is beyond the length of
the array inserts the value — making room at the clamped end — instead
of replacing an element: in general a single-key override beyond the
length leaves every original element in place and appends the value;
concretely, for state list 1, 2 and update index 5 to 9, the resulting
list keeps 1 and 2 as its first elements in order and contains 9 at the
new positions. -/
theorem c6_array_growth :
    (∀ (fuel : Nat) (k : String) (i : Int) (v : JVal) (ns : JElems),
        parseIntJS k = some i → (lengthE ns : Int) < i →
        spreadArrayF (fuel + 1) (.obj (.cons k v .nil)) ns =
          appendE ns (.cons v (.cons v .nil))) ∧
    mkStoreF 100 "k6" c6init = .ok c6store ∧
    (setF 100 c6store c6update []).store.state =
      .obj (.cons "list" (.arr c6result) .nil) ∧
    (setF 100 c6store c6update []).err = none ∧
    (toListE c6result).take 2 = [.num 1, .num 2] ∧
    (.num 9) ∈ toListE c6result := by
  exact ⟨spread_single_beyond, by decide, by decide, by decide, by decide, by decide⟩

/-- Witness for C6 at a concrete input: index 5 against an array of
length 2. -/
theorem c6_witness :
    spreadArrayF 100 (.obj (.cons "5" (.num 9) .nil))
      (.cons (.num 1) (.cons (.num 2) .nil)) =
      appendE (.cons (.num 1) (.cons (.num 2) .nil))
        (.cons (.num 9) (.cons (.num 9) .nil)) :=
  c6_array_growth.1 99 "5" 5 (.num 9)
    (.cons (.num 1) (.cons (.num 2) .nil)) (by decide) (by decide)

/-- The primitive-state container of the C7 scenario. -/
def c7store : Store :=
  { key := "counter", state := .num 5, dflt := .num 5,
    listeners := ["counter"], events := [] }

/-- The updater function of the C7 scenario, as a Lean function; its
runtime value inside the embedding is the opaque function value with
tag 0. -/
def c7updater : JVal → JVal := fun _ => .num 6

/-- C7 counterexample: set has no updater-function handling, so passing
the updater leaves the container holding the function value itself,
while passing the result of applying the updater to the current state
leaves it holding 6 — two different states, refuting the claim that set
of an updater equals set of its application to the current state. -/
theorem c7_updater_counterexample :
    mkStoreF 100 "counter" (.num 5) = .ok c7store ∧
    (setF 100 c7store (.func 0) []).store.state = .func 0 ∧
    (setF 100 c7store (c7updater (.num 5)) []).store.state = .num 6 ∧
    (JVal.func 0) ≠ (JVal.num 6) := by
  decide

/-- C7 amended: set never invokes a function passed as the update; for a
primitive-state container the function value itself replaces the state
wholesale and the container listeners fire as for any primitive set. -/
theorem c7_function_treated_as_value :
    ∀ (fuel : Nat) (st : Store) (t : Nat),
      typeofIsObject st.state = false →
      (setF fuel st (.func t) []).store.state = .func t ∧
      (setF fuel st (.func t) []).emitted = st.listeners ∧
      (setF fuel st (.func t) []).err = none := by
  intro fuel st t h
  simp [setF, h]

/-- Witness for C7 at the concrete primitive container. -/
theorem c7_witness :
    (setF 100 c7store (.func 3) []).store.state = .func 3 ∧
    (setF 100 c7store (.func 3) []).emitted = c7store.listeners ∧
    (setF 100 c7store (.func 3) []).err = none :=
  c7_function_treated_as_value 100 c7store 3 (by decide)

/-- C8: a state leaf whose current value is the literal false is
excluded from addressable, settable paths by every operation: the
derivation loop of makeUniqueKeys treats a false-valued key exactly as
if it were not there (no path is emitted, parentkey and accumulator are
unchanged), and set with any partial — including one that explicitly
has that key — leaves the false leaf unchanged. -/
theorem c8_false_leaf_excluded :
    (∀ (fuel : Nat) (k : String) (rest : JFields) (pk acc : List String),
        mukFieldsF (fuel + 1) (.cons k (.bool false) rest) pk acc =
          mukFieldsF fuel rest pk acc) ∧
    (∀ (fuel : Nat) (key : String) (d : JVal) (ls : List String)
        (ev : List (String × Nat)) (fs : JFields) (a : JVal) (k : String),
        assocF fs k = some (.bool false) →
        assocF (objFieldsOf
          (setF fuel ⟨key, .obj fs, d, ls, ev⟩ a []).store.state) k =
          some (.bool false)) := by
  constructor
  · intro fuel k rest pk acc
    rfl
  · intro fuel key d ls ev fs a k h
    rw [setF_state_obj fuel ⟨key, .obj fs, d, ls, ev⟩ a [] rfl]
    cases fuel with
    | zero => exact h
    | succ n => exact collate_false_leaf n a fs k h

/-- A single field named off holding the literal false. -/
def c8fields : JFields := .cons "off" (.bool false) .nil

/-- An update that explicitly sets the key off to true. -/
def c8update : JVal := .obj (.cons "off" (.bool true) .nil)

/-- Witness for C8 at concrete inputs: the derivation skips the false
leaf, and a set that explicitly supplies the key leaves the leaf
false. -/
theorem c8_witness :
    mukFieldsF 100 (.cons "off" (.bool false) .nil) [] [] =
      mukFieldsF 99 .nil [] [] ∧
    assocF (objFieldsOf
      (setF 100 ⟨"k8", .obj c8fields, .undef, [], []⟩ c8update []).store.state)
      "off" = some (.bool false) :=
  ⟨c8_false_leaf_excluded.1 99 "off" .nil [] [],
   c8_false_leaf_excluded.2 100 "k8" .undef [] [] c8fields c8update "off" (by decide)⟩

/-- The primitive-state container of the C9 scenario. -/
def c9store : Store :=
  { key := "counter9", state := .num 5, dflt := .num 5,
    listeners := ["counter9"], events := [] }

/-- The selector of the C9 scenario: counter true. -/
def c9selector : JVal := .obj (.cons "counter" (.bool true) .nil)

/-- C9: useSelector against a container whose state is the primitive 5
raises no error at all — the guard at line 367 tests typeof of the
store instance, which is always object for a class instance, so the
call proceeds and derives the selector paths normally, contradicting
the claim that a synchronous error is raised for every primitive-state
container. -/
theorem c9_useSelector_no_error :
    mkStoreF 100 "counter9" (.num 5) = .ok c9store ∧
    typeofIsObject c9store.state = false ∧
    useSelectorF 100 c9store c9selector = .ok ["counter"] := by
  decide

/-- The C10 input: a single key a holding null. -/
def c10init : JVal := .obj (.cons "a" .null .nil)

/-- A container with an object state, used to show the same TypeError
surfacing through set when the update contains null. -/
def c10setStore : Store :=
  { key := "k10s", state := .obj (.cons "a" (.num 1) .nil),
    dflt := .obj (.cons "a" (.num 1) .nil), listeners := ["a"], events := [] }

/-- C10: path derivation treats null as a structure (typeof null is
object) and calls Object.keys on it, which throws a TypeError; hence
for every value containing null, makeUniqueKeys never returns normally
at any fuel, constructing a container with such an initial state never
returns normally, and with enough fuel the failure is exactly the
TypeError, as shown on the concrete input — also surfacing from set
when the update contains null. -/
theorem c10_null_derivation_throws :
    (∀ (d : JVal) (fuel : Nat) (key : String), HasNullV d →
        isOkE (makeUniqueKeysF fuel d) = false ∧
        isOkE (mkStoreF fuel key d) = false) ∧
    makeUniqueKeysF 100 c10init = .error .typeError ∧
    mkStoreF 100 "k10" c10init = .error .typeError ∧
    (setF 100 c10setStore c10init []).err = some .typeError := by
  refine ⟨?_, by decide, by decide, by decide⟩
  intro d fuel key h
  exact ⟨makeUniqueKeys_hasNull fuel d h, mkStore_hasNull fuel key d h⟩

/-- Witness for C10 at the concrete input with a null value. -/
theorem c10_witness :
    isOkE (makeUniqueKeysF 100 c10init) = false ∧
    isOkE (mkStoreF 100 "k10" c10init) = false :=
  c10_null_derivation_throws.1 c10init 100 "k10"
    (HasNullV.obj _ (HasNullF.head "a" .null .nil HasNullV.self))

end Cargo
